import Mathlib

/-!
A shallow embedding of `verdin/worker.py` (`QueuingDatasourceAppender`):
queue draining (`_get_batch`), rate-limit retries (`_retry_batch`,
`_parse_retry_seconds`), post-batch pacing (`_do_next_batch`, `run`) and
shutdown (`close`, `StopWorker`).  Python floats are modelled as rationals.
The observable actions of the loop — sink `append` calls, raw `time.sleep`
calls, and interruptible `stopped.wait` calls — are recorded as an effect
trace, so that ordering, retry counts and sleep kinds can be reasoned about.
-/

namespace Verdin

/-- A value held by the source `queue.Queue`.  Producers enqueue records
(`Record = Union[Tuple, List[Any]]` in `datasource.py`, modelled by
`record`); `close()` enqueues the plain string `StopWorker.marker`
(modelled by `str`). -/
inductive Item where
  | str (s : String)
  | record (fields : List String)
deriving DecidableEq, Repr

/-- `StopWorker.marker = "__STOP__"`. -/
def marker : String := "__STOP__"

/-- Models the Python test `item == StopWorker.marker`.  A tuple or list
(`record`) never compares equal to a `str` in Python, so only a string item
equal to `"__STOP__"` matches. -/
def isStopMarker : Item → Bool
  | .str s => s == marker
  | .record _ => false

/-- The result of `_get_batch`, together with the items left in the queue.
`blocked` models the initial `q.get()` blocking forever on an empty queue;
`stopped salvage` models the `StopWorker` exception (whose `batch` field is
`None` when the marker was the first item, and the partially collected
batch otherwise); `batch` is a normal return. -/
inductive BatchResult where
  | blocked
  | stopped (salvage : Option (List Item))
  | batch (b : List Item)
deriving DecidableEq, Repr

/-- The `while len(result) <= n` drain loop of `_get_batch`: each round
first checks the bound, then a non-blocking `q.get(block=False)` — an empty
queue raises `queue.Empty`, caught to break the loop; a marker item raises
`StopWorker(result)`. -/
def drainLoop (n : ℕ) : List Item → List Item → BatchResult × List Item
  | [], result => (.batch result, [])
  | item :: rest, result =>
    if result.length ≤ n then
      if isStopMarker item then (.stopped (some result), rest)
      else drainLoop n rest (result ++ [item])
    else (.batch result, item :: rest)

/-- `QueuingDatasourceAppender._get_batch(n)`: one blocking `q.get()`, a
marker check (`raise StopWorker()` with no salvage), then `if not n:
n = q.qsize()` (both `None` and `0` are falsy) and the drain loop seeded
with the first item. -/
def getBatch (queue : List Item) (nOpt : Option ℕ) : BatchResult × List Item :=
  match queue with
  | [] => (.blocked, [])
  | item :: rest =>
    if isStopMarker item then (.stopped none, rest)
    else
      let n := match nOpt with
        | none => rest.length
        | some k => if k = 0 then rest.length else k
      drainLoop n rest [item]

theorem drainLoop_records (rest : List Item) :
    ∀ (result : List Item) (n : ℕ),
      (∀ x ∈ rest, isStopMarker x = false) →
      result.length + rest.length ≤ n + 1 →
      drainLoop n rest result = (.batch (result ++ rest), []) := by
  induction rest with
  | nil => intro result n _ _; simp [drainLoop]
  | cons item rest ih =>
    intro result n hm hlen
    have hle : result.length ≤ n := by
      have := hlen; simp [List.length_cons] at this; omega
    have hitem : isStopMarker item = false := hm item (by simp)
    have hrec := ih (result ++ [item]) n
      (fun x hx => hm x (by simp [hx]))
      (by simp [List.length_append] at hlen ⊢; omega)
    simp [drainLoop, hle, hitem, hrec]

/-- On a non-empty, marker-free queue, `_get_batch()` (the worker always
calls it with `n=None`) returns the whole queue as one batch, in order. -/
theorem getBatch_records (queue : List Item)
    (hq : queue ≠ []) (hm : ∀ x ∈ queue, isStopMarker x = false) :
    getBatch queue none = (.batch queue, []) := by
  cases queue with
  | nil => exact absurd rfl hq
  | cons item rest =>
    have hitem : isStopMarker item = false := hm item (by simp)
    have hdrain := drainLoop_records rest [item] rest.length
      (fun x hx => hm x (by simp [hx])) (by simp; omega)
    simp [getBatch, hitem, hdrain]

/-- Dequeuing the stop marker first raises `StopWorker()` with no salvage
batch. -/
theorem getBatch_marker_first (post : List Item) :
    getBatch (Item.str marker :: post) none = (.stopped none, post) := by
  simp [getBatch, isStopMarker]

theorem drainLoop_marker (pre : List Item) :
    ∀ (result post : List Item) (n : ℕ),
      (∀ x ∈ pre, isStopMarker x = false) →
      result.length + pre.length ≤ n →
      drainLoop n (pre ++ Item.str marker :: post) result
        = (.stopped (some (result ++ pre)), post) := by
  induction pre with
  | nil =>
    intro result post n _ hlen
    simp at hlen
    simp [drainLoop, hlen, isStopMarker]
  | cons item pre ih =>
    intro result post n hm hlen
    have hle : result.length ≤ n := by simp [List.length_cons] at hlen; omega
    have hitem : isStopMarker item = false := hm item (by simp)
    have hrec := ih (result ++ [item]) post n
      (fun x hx => hm x (by simp [hx]))
      (by simp [List.length_append] at hlen ⊢; omega)
    simp [drainLoop, hle, hitem, hrec]

/-- Hitting the stop marker while draining raises `StopWorker(result)`
carrying the non-empty partial batch collected so far. -/
theorem getBatch_marker_mid (item : Item) (pre post : List Item)
    (hm : ∀ x ∈ item :: pre, isStopMarker x = false) :
    getBatch (item :: pre ++ Item.str marker :: post) none
      = (.stopped (some (item :: pre)), post) := by
  have hitem : isStopMarker item = false := hm item (by simp)
  have hdrain := drainLoop_marker pre [item] post
      (pre ++ Item.str marker :: post).length
      (fun x hx => hm x (by simp [hx]))
      (by simp [List.length_append]; omega)
  simp [getBatch, hitem]
  simpa using hdrain

/-- The slice of `requests.Response` the worker reads: `status_code`,
`headers` (an association list; lookup is `headers.get`), and `text`. -/
structure Response where
  status_code : ℕ
  headers : List (String × String)
  text : String
deriving DecidableEq, Repr

/-- `requests.Response.ok`: true iff the status code is below 400. -/
def Response.ok (r : Response) : Bool := r.status_code < 400

/-- `headers.get(key)`: first matching header value, or `None`. -/
def headerGet (headers : List (String × String)) (key : String) : Option String :=
  (headers.find? (fun kv => kv.1 == key)).map (fun kv => kv.2)

/-- Numeric value of a digit string (most significant first). -/
def digitsVal (cs : List Char) : ℕ :=
  cs.foldl (fun a c => a * 10 + (c.toNat - 48)) 0

/-- Models CPython `float(s)` on plain decimal literals, as rationals: an
optional sign, then digits with an optional fractional part ("1", "1.5",
".5", "3." …).  Returns `none` where `float()` raises `ValueError`.
(Exponents, `inf`/`nan`, underscores and surrounding whitespace — which the
worker never relies on — are not modelled.) -/
def pyFloat (s : String) : Option ℚ :=
  let cs := s.toList
  let negative := cs.head? == some '-'
  let body := if negative || (cs.head? == some '+') then cs.tail else cs
  let sign : ℚ := if negative then -1 else 1
  let intPart := body.takeWhile Char.isDigit
  let rest := body.dropWhile Char.isDigit
  if rest.isEmpty then
    if intPart.isEmpty then none else some (sign * digitsVal intPart)
  else if rest.head? == some '.' then
    let frac := rest.tail
    if (intPart.isEmpty && frac.isEmpty) || !frac.all Char.isDigit then none
    else some (sign * ((digitsVal intPart : ℚ)
      + (digitsVal frac : ℚ) / (10 : ℚ) ^ frac.length))
  else none

/-- `QueuingDatasourceAppender._parse_retry_seconds`: read the
`Retry-After` header; if it is present and truthy (non-empty), try
`float(retry) + 0.5`; on `ValueError`, or when the header is missing or
empty, fall back to `default_retry_after`. -/
def parseRetrySeconds (defaultRetryAfter : ℚ) (resp : Response) : ℚ :=
  match headerGet resp.headers "Retry-After" with
  | some retry =>
    if retry ≠ "" then
      match pyFloat retry with
      | some v => v + 1 / 2
      | none => defaultRetryAfter
    else defaultRetryAfter
  | none => defaultRetryAfter

/-- An observable action of the worker loop: a sink `destination.append`
call with its batch, a raw `time.sleep` (not interruptible by `close()`),
or `self.stopped.wait` (an event wait, interruptible by `close()`). -/
inductive Effect where
  | append (batch : List Item)
  | sleepRaw (seconds : ℚ)
  | waitStopped (seconds : ℚ)
deriving DecidableEq, Repr

/-- True for the effects that suspend the loop for a duration. -/
def Effect.isSleep : Effect → Bool
  | .sleepRaw _ => true
  | .waitStopped _ => true
  | .append _ => false

/-- True only for the event-based wait that `close()` can cut short. -/
def Effect.interruptibleWait : Effect → Bool
  | .waitStopped _ => true
  | _ => false

/-- The batches passed to the sink's append operation, in call order. -/
def appendedBatches (effects : List Effect) : List (List Item) :=
  effects.filterMap fun e =>
    match e with
    | .append b => some b
    | _ => none

/-- Number of `destination.append` calls recorded in a trace. -/
def appendCount (effects : List Effect) : ℕ := (appendedBatches effects).length

/-- What `_retry_batch` returns (last response — `None` when no attempt was
made — and the rate-limited flag), plus the trace of its effects. -/
structure RetryResult where
  response : Option Response
  limited : Bool
  effects : List Effect
deriving DecidableEq, Repr

/-- The `for _ in range(max_retries)` loop of `_retry_batch`.  `dest i` is
the response the sink gives to the i-th append call for this batch; `fuel`
counts the remaining loop iterations.  On `response.ok` return; on status
429 record the backoff `time.sleep(wait)` and continue with `limited=True`;
on any other status return immediately (batch dropped with a warning). -/
def retryBatchGo (dest : ℕ → Response) (defaultRetryAfter : ℚ)
    (batch : List Item) :
    ℕ → ℕ → Bool → Option Response → RetryResult
  | 0, _, limited, last => ⟨last, limited, []⟩
  | fuel + 1, i, limited, _ =>
    let resp := dest i
    if resp.ok then ⟨some resp, limited, [.append batch]⟩
    else if resp.status_code == 429 then
      let wait := parseRetrySeconds defaultRetryAfter resp
      let rest := retryBatchGo dest defaultRetryAfter batch fuel (i + 1) true (some resp)
      ⟨rest.response, rest.limited, .append batch :: .sleepRaw wait :: rest.effects⟩
    else ⟨some resp, limited, [.append batch]⟩

/-- `QueuingDatasourceAppender._retry_batch(batch, max_retries)`:
`limited = False`, `response = None`, then the retry loop. -/
def retryBatch (dest : ℕ → Response) (defaultRetryAfter : ℚ)
    (batch : List Item) (maxRetries : ℕ) : RetryResult :=
  retryBatchGo dest defaultRetryAfter batch maxRetries 0 false none

theorem retryBatchGo_succ_ok (dest : ℕ → Response) (dra : ℚ) (batch : List Item)
    (fuel i : ℕ) (limited : Bool) (last : Option Response)
    (hok : (dest i).ok = true) :
    retryBatchGo dest dra batch (fuel + 1) i limited last
      = ⟨some (dest i), limited, [.append batch]⟩ := by
  simp [retryBatchGo, hok]

theorem retryBatchGo_succ_429 (dest : ℕ → Response) (dra : ℚ) (batch : List Item)
    (fuel i : ℕ) (limited : Bool) (last : Option Response)
    (hok : (dest i).ok = false) (h429 : (dest i).status_code = 429) :
    retryBatchGo dest dra batch (fuel + 1) i limited last
      = ⟨(retryBatchGo dest dra batch fuel (i + 1) true (some (dest i))).response,
         (retryBatchGo dest dra batch fuel (i + 1) true (some (dest i))).limited,
         .append batch :: .sleepRaw (parseRetrySeconds dra (dest i))
           :: (retryBatchGo dest dra batch fuel (i + 1) true (some (dest i))).effects⟩ := by
  simp [retryBatchGo, hok, h429]

theorem retryBatchGo_succ_other (dest : ℕ → Response) (dra : ℚ) (batch : List Item)
    (fuel i : ℕ) (limited : Bool) (last : Option Response)
    (hok : (dest i).ok = false) (h429 : (dest i).status_code ≠ 429) :
    retryBatchGo dest dra batch (fuel + 1) i limited last
      = ⟨some (dest i), limited, [.append batch]⟩ := by
  simp [retryBatchGo, hok, h429]

@[simp] theorem appendedBatches_nil : appendedBatches [] = [] := rfl

@[simp] theorem appendedBatches_cons_append (b : List Item) (l : List Effect) :
    appendedBatches (.append b :: l) = b :: appendedBatches l := rfl

@[simp] theorem appendedBatches_cons_sleepRaw (w : ℚ) (l : List Effect) :
    appendedBatches (.sleepRaw w :: l) = appendedBatches l := rfl

@[simp] theorem appendedBatches_cons_waitStopped (w : ℚ) (l : List Effect) :
    appendedBatches (.waitStopped w :: l) = appendedBatches l := rfl

@[simp] theorem appendedBatches_concat (l₁ l₂ : List Effect) :
    appendedBatches (l₁ ++ l₂) = appendedBatches l₁ ++ appendedBatches l₂ := by
  simp [appendedBatches]

@[simp] theorem appendCount_nil : appendCount [] = 0 := rfl

@[simp] theorem appendCount_cons_append (b : List Item) (l : List Effect) :
    appendCount (.append b :: l) = appendCount l + 1 := rfl

@[simp] theorem appendCount_cons_sleepRaw (w : ℚ) (l : List Effect) :
    appendCount (.sleepRaw w :: l) = appendCount l := rfl

@[simp] theorem appendCount_cons_waitStopped (w : ℚ) (l : List Effect) :
    appendCount (.waitStopped w :: l) = appendCount l := rfl

@[simp] theorem appendCount_concat (l₁ l₂ : List Effect) :
    appendCount (l₁ ++ l₂) = appendCount l₁ + appendCount l₂ := by
  simp [appendCount]

theorem retryBatchGo_appendCount_le (dest : ℕ → Response) (dra : ℚ)
    (batch : List Item) :
    ∀ (fuel i : ℕ) (limited : Bool) (last : Option Response),
      appendCount (retryBatchGo dest dra batch fuel i limited last).effects ≤ fuel := by
  intro fuel
  induction fuel with
  | zero => intro i limited last; simp [retryBatchGo, appendCount]
  | succ fuel ih =>
    intro i limited last
    by_cases hok : (dest i).ok
    · simp [retryBatchGo, hok, appendCount]
    · by_cases h429 : (dest i).status_code = 429
      · have h := ih (i + 1) true (some (dest i))
        simp [retryBatchGo, hok, h429, appendCount] at h ⊢
        omega
      · simp [retryBatchGo, hok, h429, appendCount]

theorem retryBatchGo_append_mem (dest : ℕ → Response) (dra : ℚ)
    (batch : List Item) :
    ∀ (fuel i : ℕ) (limited : Bool) (last : Option Response) (b : List Item),
      Effect.append b ∈ (retryBatchGo dest dra batch fuel i limited last).effects →
      b = batch := by
  intro fuel
  induction fuel with
  | zero => intro i limited last b h; simp [retryBatchGo] at h
  | succ fuel ih =>
    intro i limited last b h
    by_cases hok : (dest i).ok
    · simp [retryBatchGo, hok] at h; exact h
    · by_cases h429 : (dest i).status_code = 429
      · simp [retryBatchGo, hok, h429] at h
        rcases h with h | h
        · exact h
        · exact ih (i + 1) true (some (dest i)) b h
      · simp [retryBatchGo, hok, h429] at h; exact h

theorem retryBatchGo_no_waitStopped (dest : ℕ → Response) (dra : ℚ)
    (batch : List Item) :
    ∀ (fuel i : ℕ) (limited : Bool) (last : Option Response) (d : ℚ),
      Effect.waitStopped d ∉ (retryBatchGo dest dra batch fuel i limited last).effects := by
  intro fuel
  induction fuel with
  | zero => intro i limited last d h; simp [retryBatchGo] at h
  | succ fuel ih =>
    intro i limited last d h
    by_cases hok : (dest i).ok
    · simp [retryBatchGo, hok] at h
    · by_cases h429 : (dest i).status_code = 429
      · simp [retryBatchGo, hok, h429] at h
        exact ih (i + 1) true (some (dest i)) d h
      · simp [retryBatchGo, hok, h429] at h

theorem retryBatchGo_head (dest : ℕ → Response) (dra : ℚ) (batch : List Item)
    (fuel i : ℕ) (limited : Bool) (last : Option Response) (h : 0 < fuel) :
    (retryBatchGo dest dra batch fuel i limited last).effects.head?
      = some (.append batch) := by
  cases fuel with
  | zero => omega
  | succ fuel =>
    by_cases hok : (dest i).ok
    · simp [retryBatchGo, hok]
    · by_cases h429 : (dest i).status_code = 429
      · simp [retryBatchGo, hok, h429]
      · simp [retryBatchGo, hok, h429]

theorem retryBatchGo_mid_attempts (dest : ℕ → Response) (dra : ℚ)
    (batch : List Item) :
    ∀ (fuel i : ℕ) (limited : Bool) (last : Option Response) (j : ℕ),
      j + 1 < appendCount (retryBatchGo dest dra batch fuel i limited last).effects →
      (dest (i + j)).ok = false ∧ (dest (i + j)).status_code = 429 := by
  intro fuel
  induction fuel with
  | zero => intro i limited last j h; simp [retryBatchGo, appendCount] at h
  | succ fuel ih =>
    intro i limited last j h
    by_cases hok : (dest i).ok
    · simp [retryBatchGo, hok, appendCount] at h
    · by_cases h429 : (dest i).status_code = 429
      · simp only [retryBatchGo, appendCount] at h
        rw [if_neg (by simp [hok]), if_pos (by simp [h429])] at h
        simp [appendCount] at h
        cases j with
        | zero => exact ⟨by simp [Bool.not_eq_true] at hok; simpa using hok, by simpa using h429⟩
        | succ j =>
          have hj : j + 1 < appendCount
              (retryBatchGo dest dra batch fuel (i + 1) true (some (dest i))).effects := by
            simp [appendCount]; omega
          have := ih (i + 1) true (some (dest i)) j hj
          have harith : i + 1 + j = i + (j + 1) := by omega
          rwa [harith] at this
      · simp [retryBatchGo, hok, h429, appendCount] at h

theorem retryBatchGo_limited_isSome (dest : ℕ → Response) (dra : ℚ)
    (batch : List Item) :
    ∀ (fuel i : ℕ) (limited : Bool) (last : Option Response),
      (limited = true → last.isSome) →
      (retryBatchGo dest dra batch fuel i limited last).limited = true →
      (retryBatchGo dest dra batch fuel i limited last).response.isSome := by
  intro fuel
  induction fuel with
  | zero => intro i limited last hinv hl; simp [retryBatchGo] at hl ⊢; exact hinv hl
  | succ fuel ih =>
    intro i limited last hinv hl
    by_cases hok : (dest i).ok
    · simp [retryBatchGo, hok]
    · by_cases h429 : (dest i).status_code = 429
      · simp only [retryBatchGo] at hl ⊢
        rw [if_neg (by simp [hok]), if_pos (by simp [h429])] at hl ⊢
        exact ih (i + 1) true (some (dest i)) (fun _ => by simp) hl
      · simp [retryBatchGo, hok, h429]

theorem retryBatchGo_exhaust (dest : ℕ → Response) (dra : ℚ)
    (batch : List Item) :
    ∀ (fuel i : ℕ) (limited : Bool) (last : Option Response), 0 < fuel →
      (∀ j, j < fuel → (dest (i + j)).ok = false ∧ (dest (i + j)).status_code = 429) →
      (retryBatchGo dest dra batch fuel i limited last).response
          = some (dest (i + fuel - 1))
        ∧ (retryBatchGo dest dra batch fuel i limited last).limited = true
        ∧ appendCount (retryBatchGo dest dra batch fuel i limited last).effects = fuel := by
  intro fuel
  induction fuel with
  | zero => intro i limited last h; omega
  | succ fuel ih =>
    intro i limited last _ hall
    have h0 := hall 0 (by omega)
    simp at h0
    have hok : ¬(dest i).ok = true := by simp [h0.1]
    cases Nat.eq_zero_or_pos fuel with
    | inl hz =>
      subst hz
      simp [retryBatchGo, hok, h0.2, appendCount]
    | inr hpos =>
      have hrec := ih (i + 1) true (some (dest i)) hpos
        (fun j hj => by
          have := hall (j + 1) (by omega)
          have harith : i + (j + 1) = i + 1 + j := by omega
          rwa [harith] at this)
      have hokf : (dest i).ok = false := by simpa using hok
      rw [retryBatchGo_succ_429 dest dra batch fuel i limited last hokf h0.2]
      refine ⟨?_, hrec.2.1, ?_⟩
      · have harith : i + 1 + fuel - 1 = i + (fuel + 1) - 1 := by omega
        rw [hrec.1, harith]
      · simp [hrec.2.2]

theorem retryBatchGo_permanent (dest : ℕ → Response) (dra : ℚ)
    (batch : List Item) :
    ∀ (k fuel i : ℕ) (limited : Bool) (last : Option Response), k < fuel →
      (∀ j, j < k → (dest (i + j)).ok = false ∧ (dest (i + j)).status_code = 429) →
      (dest (i + k)).ok = false → (dest (i + k)).status_code ≠ 429 →
      (retryBatchGo dest dra batch fuel i limited last).response = some (dest (i + k))
        ∧ appendCount (retryBatchGo dest dra batch fuel i limited last).effects = k + 1 := by
  intro k
  induction k with
  | zero =>
    intro fuel i limited last hlt _ hfail h429
    cases fuel with
    | zero => omega
    | succ fuel =>
      simp at hfail h429
      simp [retryBatchGo, hfail, h429, appendCount]
  | succ k ih =>
    intro fuel i limited last hlt hall hfail h429
    cases fuel with
    | zero => omega
    | succ fuel =>
      have h0 := hall 0 (by omega)
      simp at h0
      have hok : ¬(dest i).ok = true := by simp [h0.1]
      have hrec := ih fuel (i + 1) true (some (dest i)) (by omega)
        (fun j hj => by
          have := hall (j + 1) (by omega)
          have harith : i + (j + 1) = i + 1 + j := by omega
          rwa [harith] at this)
        (by have harith : i + (k + 1) = i + 1 + k := by omega
            rwa [harith] at hfail)
        (by have harith : i + (k + 1) = i + 1 + k := by omega
            rwa [harith] at h429)
      have hokf : (dest i).ok = false := by simpa using hok
      rw [retryBatchGo_succ_429 dest dra batch fuel i limited last hokf h0.2]
      constructor
      · have harith : i + 1 + k = i + (k + 1) := by omega
        rw [hrec.1, harith]
      · simp [hrec.2]

/-- Default of the `max_retries` parameter of `_retry_batch`. -/
def normal_max_retries : ℕ := 10

/-- The `max_retries=2` budget `run()` uses for the shutdown-time flush. -/
def stop_flush_retries : ℕ := 2

/-- The appender's numeric configuration: `min_interval` (constructor
parameter, default 5) and the class attributes `wait_after_rate_limit` and
`default_retry_after` (both 12). -/
structure Config where
  min_interval : ℚ
  wait_after_rate_limit : ℚ
  default_retry_after : ℚ
deriving DecidableEq, Repr

/-- The defaults of `QueuingDatasourceAppender`. -/
def defaultConfig : Config := ⟨5, 12, 12⟩

/-- The pause computed in `_do_next_batch` when the batch was rate-limited:
`wait_after_rate_limit` if truthy (non-zero), otherwise
`float(response.headers.get("X-Ratelimit-Reset", 0))`.  `none` models the
`ValueError` branch, where the `time.sleep` inside the `try` is skipped. -/
def rlPauseWait (resp : Response) (waitAfterRateLimit : ℚ) : Option ℚ :=
  if waitAfterRateLimit ≠ 0 then some waitAfterRateLimit
  else
    match headerGet resp.headers "X-Ratelimit-Reset" with
    | none => some 0
    | some s => pyFloat s

/-- `QueuingDatasourceAppender._do_next_batch` after `_get_batch` returned
a normal batch: `_retry_batch(batch)` with the default budget, then, if the
request was rate-limited, `time.sleep` for the reset pause. -/
def doNextBatch (dest : ℕ → Response) (cfg : Config) (batch : List Item) :
    List Effect :=
  let r := retryBatch dest cfg.default_retry_after batch normal_max_retries
  if r.limited then
    match r.response with
    | some resp =>
      match rlPauseWait resp cfg.wait_after_rate_limit with
      | some w => r.effects ++ [.sleepRaw w]
      | none => r.effects
    | none => r.effects
  else r.effects

/-- What the loop body does next after one iteration: `next` — fall
through to the next `while` iteration; `stop` — the `return` in the
`except StopWorker` handler; `blocked` — the iteration never finishes
because `q.get()` blocks on an empty queue. -/
inductive Outcome where
  | next
  | stop
  | blocked
deriving DecidableEq, Repr

/-- Observable result of one iteration of the `run()` loop: the effect
trace, the items left in the source queue, and how the iteration ended. -/
structure IterResult where
  effects : List Effect
  queue : List Item
  outcome : Outcome
deriving DecidableEq, Repr

/-- One iteration of the `while` loop in `run()`: `_do_next_batch()`
(whose `_get_batch()` may raise `StopWorker`), then
`if self.min_interval: self.stopped.wait(self.min_interval)`.  The
`except StopWorker` handler flushes a truthy salvage batch with
`_retry_batch(e.batch, max_retries=2)` and returns. -/
def runIteration (dest : ℕ → Response) (cfg : Config) (queue : List Item) :
    IterResult :=
  match getBatch queue none with
  | (.blocked, q) => ⟨[], q, .blocked⟩
  | (.stopped none, q) => ⟨[], q, .stop⟩
  | (.stopped (some salvage), q) =>
    if salvage.isEmpty then ⟨[], q, .stop⟩
    else
      ⟨(retryBatch dest cfg.default_retry_after salvage stop_flush_retries).effects,
        q, .stop⟩
  | (.batch b, q) =>
    ⟨doNextBatch dest cfg b
      ++ (if cfg.min_interval ≠ 0 then [.waitStopped cfg.min_interval] else []),
      q, .next⟩

/-- The worker state `close()` touches: the `stopped` event and the source
queue. -/
structure WorkerView where
  stopped : Bool
  queue : List Item
deriving DecidableEq, Repr

/-- `QueuingDatasourceAppender.close()`: return early if `stopped` is
already set, otherwise set it and `put_nowait` the stop marker. -/
def close (w : WorkerView) : WorkerView :=
  if w.stopped then w else ⟨true, w.queue ++ [.str marker]⟩

/-- Number of items in a queue that `_get_batch` would treat as the stop
marker. -/
def markerCount (queue : List Item) : ℕ := (queue.filter isStopMarker).length

/-- A sink that always accepts (HTTP 200), as the no-drop runs of the
order-preservation property assume. -/
def okDest : ℕ → Response := fun _ => ⟨200, [], ""⟩

/-- Runs the `run()` loop over a schedule of bursts: before each iteration
the next burst of producer enqueues arrives behind whatever the previous
iteration left in the queue.  Iteration stops with the schedule, or when
the loop itself stops or blocks. -/
def runRounds (dest : ℕ → Response) (cfg : Config) :
    List (List Item) → List Item → List Effect
  | [], _ => []
  | burst :: bursts, leftover =>
    let r := runIteration dest cfg (leftover ++ burst)
    match r.outcome with
    | .next => r.effects ++ runRounds dest cfg bursts r.queue
    | _ => r.effects

theorem retryBatch_first_ok (dest : ℕ → Response) (dra : ℚ) (b : List Item)
    (maxr : ℕ) (hok : (dest 0).ok = true) (hpos : 0 < maxr) :
    retryBatch dest dra b maxr = ⟨some (dest 0), false, [.append b]⟩ := by
  cases maxr with
  | zero => omega
  | succ fuel => exact retryBatchGo_succ_ok dest dra b fuel 0 false none hok

theorem doNextBatch_okDest (cfg : Config) (b : List Item) :
    doNextBatch okDest cfg b = [.append b] := by
  have h := retryBatch_first_ok okDest cfg.default_retry_after b
    normal_max_retries (by decide) (by decide)
  simp [doNextBatch, h]

/-- `run()` on a normal (marker-free, non-empty) queue state: one full
drain into a single batch, `_do_next_batch`, then the `min_interval`
event wait, and the loop goes round again. -/
theorem runIteration_records (dest : ℕ → Response) (cfg : Config)
    (q : List Item) (hq : q ≠ []) (hm : ∀ x ∈ q, isStopMarker x = false) :
    runIteration dest cfg q
      = ⟨doNextBatch dest cfg q
          ++ (if cfg.min_interval ≠ 0 then [.waitStopped cfg.min_interval] else []),
         [], .next⟩ := by
  unfold runIteration
  rw [getBatch_records q hq hm]

theorem runRounds_okDest (cfg : Config) :
    ∀ (bursts : List (List Item)),
      (∀ b ∈ bursts, b ≠ [] ∧ ∀ x ∈ b, isStopMarker x = false) →
      appendedBatches (runRounds okDest cfg bursts []) = bursts := by
  intro bursts
  induction bursts with
  | nil => intro _; simp [runRounds]
  | cons burst bursts ih =>
    intro h
    have hb := h burst (by simp)
    have hit := runIteration_records okDest cfg burst hb.1 hb.2
    have hrec := ih (fun b hbm => h b (by simp [hbm]))
    simp only [runRounds, List.nil_append, hit, doNextBatch_okDest]
    by_cases hmi : cfg.min_interval ≠ 0 <;> simp [hmi, hrec]

theorem drainLoop_batch_ne_nil (rest : List Item) :
    ∀ (result : List Item) (n : ℕ) (b q' : List Item), result ≠ [] →
      drainLoop n rest result = (.batch b, q') → b ≠ [] := by
  induction rest with
  | nil =>
    intro result n b q' hres h
    simp [drainLoop] at h
    rw [← h.1]; exact hres
  | cons item rest ih =>
    intro result n b q' hres h
    by_cases hle : result.length ≤ n
    · by_cases hmk : isStopMarker item
      · simp [drainLoop, hle, hmk] at h
      · simp only [drainLoop, if_pos hle, if_neg hmk] at h
        exact ih (result ++ [item]) n b q' (by simp) h
    · simp [drainLoop, hle] at h
      rw [← h.1]; exact hres

/-- `_get_batch` seeds the batch with the blocking `q.get()` result, so a
normal batch is never empty. -/
theorem getBatch_batch_ne_nil (q b rest : List Item)
    (h : getBatch q none = (.batch b, rest)) : b ≠ [] := by
  cases q with
  | nil => simp [getBatch] at h
  | cons item tl =>
    by_cases hmk : isStopMarker item
    · simp [getBatch, hmk] at h
    · simp only [getBatch, if_neg hmk] at h
      exact drainLoop_batch_ne_nil tl [item] tl.length b rest (by simp) h

theorem doNextBatch_append_mem (dest : ℕ → Response) (cfg : Config)
    (batch b : List Item) (h : Effect.append b ∈ doNextBatch dest cfg batch) :
    b = batch := by
  have hbase : ∀ hb : Effect.append b ∈
      (retryBatch dest cfg.default_retry_after batch normal_max_retries).effects,
      b = batch := fun hb =>
    retryBatchGo_append_mem dest cfg.default_retry_after batch
      normal_max_retries 0 false none b hb
  simp only [doNextBatch] at h
  split at h
  · split at h
    · split at h
      · rw [List.mem_append] at h
        rcases h with h | h
        · exact hbase h
        · simp at h
      · exact hbase h
    · exact hbase h
  · exact hbase h

theorem doNextBatch_no_waitStopped (dest : ℕ → Response) (cfg : Config)
    (batch : List Item) (d : ℚ) :
    Effect.waitStopped d ∉ doNextBatch dest cfg batch := by
  intro h
  have hbase : Effect.waitStopped d ∉
      (retryBatch dest cfg.default_retry_after batch normal_max_retries).effects :=
    retryBatchGo_no_waitStopped dest cfg.default_retry_after batch
      normal_max_retries 0 false none d
  simp only [doNextBatch] at h
  split at h
  · split at h
    · split at h
      · rw [List.mem_append] at h
        rcases h with h | h
        · exact hbase h
        · simp at h
      · exact hbase h
    · exact hbase h
  · exact hbase h

/-- `float("1") = 1.0`. -/
theorem pyFloat_one : pyFloat "1" = some 1 := by
  have h1 : "1".toList = ['1'] := rfl
  norm_num [pyFloat, digitsVal, h1,
    show ¬('1' = '-') from by decide, show ¬('1' = '+') from by decide,
    show Char.isDigit '1' = true from by decide,
    show Char.toNat '1' = 49 from rfl]

/-- `float("2") = 2.0`. -/
theorem pyFloat_two : pyFloat "2" = some 2 := by
  have h1 : "2".toList = ['2'] := rfl
  norm_num [pyFloat, digitsVal, h1,
    show ¬('2' = '-') from by decide, show ¬('2' = '+') from by decide,
    show Char.isDigit '2' = true from by decide,
    show Char.toNat '2' = 50 from rfl]

/-- A sink that rate-limits the first append with `Retry-After: 1` and
accepts afterwards — the scenario of the repository's `test_retry`. -/
def destRL1 : ℕ → Response := fun i =>
  if i = 0 then ⟨429, [("Retry-After", "1")], "rate limited"⟩ else ⟨200, [], ""⟩

/-- A sink that rate-limits the first append with `Retry-After: 2` and
accepts afterwards. -/
def destRL2 : ℕ → Response := fun i =>
  if i = 0 then ⟨429, [("Retry-After", "2")], "rate limited"⟩ else ⟨200, [], ""⟩

/-- A sink that always rate-limits. -/
def destAll429 : ℕ → Response := fun _ => ⟨429, [("Retry-After", "1")], "rate limited"⟩

/-- A sink that always fails permanently (HTTP 500). -/
def destFail : ℕ → Response := fun _ => ⟨500, [], "server error"⟩

/-- C1: batches preserve FIFO enqueue order: a burst enqueued before the
worker drains arrives as one ordered batch (each round's append receives
exactly that round's burst), records enqueued after the prior dispatch form
a new batch, and the concatenation of all delivered batches in delivery
order equals the concatenation of the enqueued bursts — the original
enqueue order — when the sink accepts everything (no drops). -/
theorem c1_fifo_batches (cfg : Config) (bursts : List (List Item))
    (h : ∀ b ∈ bursts, b ≠ [] ∧ ∀ x ∈ b, isStopMarker x = false) :
    appendedBatches (runRounds okDest cfg bursts []) = bursts
    ∧ (appendedBatches (runRounds okDest cfg bursts [])).flatten = bursts.flatten := by
  have hb := runRounds_okDest cfg bursts h
  exact ⟨hb, by rw [hb]⟩

/-- C1 witness: the spec's example — enqueue `a,b,c` as a burst, then `d`
after the first dispatch: the appends receive `[a,b,c]` then `[d]`. -/
theorem c1_fifo_batches_witness :
    appendedBatches (runRounds okDest defaultConfig
        [[Item.record ["a"], Item.record ["b"], Item.record ["c"]],
         [Item.record ["d"]]] [])
      = [[Item.record ["a"], Item.record ["b"], Item.record ["c"]],
         [Item.record ["d"]]] :=
  (c1_fifo_batches defaultConfig
    [[Item.record ["a"], Item.record ["b"], Item.record ["c"]],
     [Item.record ["d"]]] (by decide)).1

/-- C2: observing the stop marker — first item or mid-drain — terminates
the loop; a non-empty partial batch is flushed once immediately (the first
effect is its append) with a retry budget of 2 (< the normal 10) and no
pacing wait; with no partial batch the loop exits with no append at all. -/
theorem c2_stop_flush (dest : ℕ → Response) (cfg : Config)
    (pre post : List Item) (hm : ∀ x ∈ pre, isStopMarker x = false) :
    (runIteration dest cfg (pre ++ Item.str marker :: post)).outcome = .stop
    ∧ (runIteration dest cfg (pre ++ Item.str marker :: post)).queue = post
    ∧ (pre = [] →
        (runIteration dest cfg (pre ++ Item.str marker :: post)).effects = [])
    ∧ (pre ≠ [] →
        (runIteration dest cfg (pre ++ Item.str marker :: post)).effects
          = (retryBatch dest cfg.default_retry_after pre stop_flush_retries).effects
        ∧ appendCount
            (runIteration dest cfg (pre ++ Item.str marker :: post)).effects
            ≤ stop_flush_retries
        ∧ (∀ b, Effect.append b ∈
            (runIteration dest cfg (pre ++ Item.str marker :: post)).effects →
            b = pre)
        ∧ (runIteration dest cfg (pre ++ Item.str marker :: post)).effects.head?
            = some (.append pre)
        ∧ (∀ d, Effect.waitStopped d ∉
            (runIteration dest cfg (pre ++ Item.str marker :: post)).effects))
    ∧ stop_flush_retries = 2 ∧ stop_flush_retries < normal_max_retries := by
  cases pre with
  | nil =>
    have hit : runIteration dest cfg ([] ++ Item.str marker :: post)
        = ⟨[], post, .stop⟩ := by
      unfold runIteration
      rw [List.nil_append, getBatch_marker_first post]
    refine ⟨by rw [hit], by rw [hit], fun _ => by rw [hit], fun hne => absurd rfl hne,
      rfl, by decide⟩
  | cons a tl =>
    have hit : runIteration dest cfg ((a :: tl) ++ Item.str marker :: post)
        = ⟨(retryBatch dest cfg.default_retry_after (a :: tl) stop_flush_retries).effects,
           post, .stop⟩ := by
      unfold runIteration
      rw [getBatch_marker_mid a tl post hm]
      rfl
    refine ⟨by rw [hit], by rw [hit],
      fun habs => absurd habs (List.cons_ne_nil a tl), fun _ => ?_,
      rfl, by decide⟩
    rw [hit]
    refine ⟨rfl, ?_, ?_, ?_, ?_⟩
    · exact retryBatchGo_appendCount_le dest cfg.default_retry_after (a :: tl)
        stop_flush_retries 0 false none
    · exact fun b hb => retryBatchGo_append_mem dest cfg.default_retry_after
        (a :: tl) stop_flush_retries 0 false none b hb
    · exact retryBatchGo_head dest cfg.default_retry_after (a :: tl)
        stop_flush_retries 0 false none (by decide)
    · exact fun d => retryBatchGo_no_waitStopped dest cfg.default_retry_after
        (a :: tl) stop_flush_retries 0 false none d

/-- C2 witness: a record followed by the stop marker — the loop stops, the
record is flushed as the immediate first append. -/
theorem c2_stop_flush_witness :
    (runIteration okDest defaultConfig
        ([Item.record ["a"]] ++ Item.str marker :: [])).outcome = .stop
    ∧ (runIteration okDest defaultConfig
        ([Item.record ["a"]] ++ Item.str marker :: [])).effects.head?
        = some (.append [Item.record ["a"]]) := by
  have h := c2_stop_flush okDest defaultConfig [Item.record ["a"]] [] (by decide)
  exact ⟨h.1, ((h.2.2.2.1 (by decide)).2.2.2.1)⟩

/-- C3: `_retry_batch` makes at most `max_retries` append attempts (the
default budget is 10); every attempt other than the last happens only
because the previous response was rate-limited (not ok, status 429); when
all attempts are rate-limited the cap is exhausted, the last response is
returned as-is, and the surrounding loop proceeds to the next iteration. -/
theorem c3_retry_cap (dest : ℕ → Response) (dra : ℚ) (batch : List Item)
    (maxr : ℕ) :
    appendCount (retryBatch dest dra batch maxr).effects ≤ maxr
    ∧ (∀ j, j + 1 < appendCount (retryBatch dest dra batch maxr).effects →
        (dest j).ok = false ∧ (dest j).status_code = 429)
    ∧ (0 < maxr →
        (∀ j, j < maxr → (dest j).ok = false ∧ (dest j).status_code = 429) →
        (retryBatch dest dra batch maxr).response = some (dest (maxr - 1))
          ∧ (retryBatch dest dra batch maxr).limited = true
          ∧ appendCount (retryBatch dest dra batch maxr).effects = maxr)
    ∧ normal_max_retries = 10
    ∧ (∀ (cfg : Config) (q : List Item), q ≠ [] →
        (∀ x ∈ q, isStopMarker x = false) →
        (runIteration dest cfg q).outcome = .next) := by
  refine ⟨retryBatchGo_appendCount_le dest dra batch maxr 0 false none,
    fun j hj => ?_, fun hpos hall => ?_, rfl, fun cfg q hq hm => ?_⟩
  · simpa using retryBatchGo_mid_attempts dest dra batch maxr 0 false none j hj
  · have h := retryBatchGo_exhaust dest dra batch maxr 0 false none hpos
      (by simpa using hall)
    exact ⟨by simpa using h.1, h.2.1, h.2.2⟩
  · rw [runIteration_records dest cfg q hq hm]

/-- C3 witness: a sink that always answers 429 exhausts the 10-attempt
budget and the last (10th) response is returned as-is. -/
theorem c3_retry_cap_witness :
    appendCount (retryBatch destAll429 (12 : ℚ) [Item.record ["a"]]
        normal_max_retries).effects = normal_max_retries
    ∧ (retryBatch destAll429 (12 : ℚ) [Item.record ["a"]]
        normal_max_retries).response = some (destAll429 9) := by
  have h := (c3_retry_cap destAll429 (12 : ℚ) [Item.record ["a"]]
    normal_max_retries).2.2.1 (by decide) (by decide)
  exact ⟨h.2.2, h.1⟩

/-- C4: on a rate-limited attempt the retry wait is the parsed
`Retry-After` header plus the fixed 0.5 s margin; a missing or unparseable
header falls back to `default_retry_after`, whose class default is 12. -/
theorem c4_retry_wait (dra : ℚ) (resp : Response) (dest : ℕ → Response)
    (b : List Item) (maxr : ℕ) :
    (∀ s v, headerGet resp.headers "Retry-After" = some s → pyFloat s = some v →
        parseRetrySeconds dra resp = v + 1 / 2)
    ∧ (headerGet resp.headers "Retry-After" = none →
        parseRetrySeconds dra resp = dra)
    ∧ (∀ s, headerGet resp.headers "Retry-After" = some s → pyFloat s = none →
        parseRetrySeconds dra resp = dra)
    ∧ defaultConfig.default_retry_after = 12
    ∧ (0 < maxr → (dest 0).ok = false → (dest 0).status_code = 429 →
        (retryBatch dest dra b maxr).effects.take 2
          = [.append b, .sleepRaw (parseRetrySeconds dra (dest 0))]) := by
  refine ⟨fun s v hh hf => ?_, fun hh => ?_, fun s hh hf => ?_, rfl,
    fun hpos hok h429 => ?_⟩
  · have hs : s ≠ "" := by
      intro habs
      rw [habs] at hf
      have : pyFloat "" = none := rfl
      rw [this] at hf
      cases hf
    simp [parseRetrySeconds, hh, hs, hf]
  · simp [parseRetrySeconds, hh]
  · by_cases hs : s = ""
    · simp [parseRetrySeconds, hh, hs]
    · simp [parseRetrySeconds, hh, hs, hf]
  · cases maxr with
    | zero => omega
    | succ fuel =>
      rw [show retryBatch dest dra b (fuel + 1)
          = retryBatchGo dest dra b (fuel + 1) 0 false none from rfl,
        retryBatchGo_succ_429 dest dra b fuel 0 false none hok h429]
      rfl

/-- C4 witness: `Retry-After: 1` yields a 1.5 s wait; no header yields the
12 s default. -/
theorem c4_retry_wait_witness :
    parseRetrySeconds defaultConfig.default_retry_after
        ⟨429, [("Retry-After", "1")], ""⟩ = 1 + 1 / 2
    ∧ parseRetrySeconds defaultConfig.default_retry_after ⟨429, [], ""⟩
        = defaultConfig.default_retry_after := by
  have h1 := (c4_retry_wait defaultConfig.default_retry_after
    ⟨429, [("Retry-After", "1")], ""⟩ okDest [] 1).1 "1" 1 rfl pyFloat_one
  have h2 := (c4_retry_wait defaultConfig.default_retry_after
    ⟨429, [], ""⟩ okDest [] 1).2.1 rfl
  exact ⟨h1, h2⟩

theorem parseRetrySeconds_destRL1 : parseRetrySeconds 12 (destRL1 0) = 3 / 2 := by
  have hd : destRL1 0 = ⟨429, [("Retry-After", "1")], "rate limited"⟩ := rfl
  have hh : headerGet [("Retry-After", "1")] "Retry-After" = some "1" := rfl
  rw [hd]
  simp [parseRetrySeconds, hh, pyFloat_one]
  norm_num

theorem retryBatch_destRL1 :
    retryBatch destRL1 (12 : ℚ) [Item.record ["a"]] normal_max_retries
      = ⟨some ⟨200, [], ""⟩, true,
         [.append [Item.record ["a"]], .sleepRaw (3 / 2),
          .append [Item.record ["a"]]]⟩ := by
  have e1 := retryBatchGo_succ_429 destRL1 12 [Item.record ["a"]] 9 0 false none
    (by decide) (by decide)
  have e2 := retryBatchGo_succ_ok destRL1 12 [Item.record ["a"]] 8 1 true
    (some (destRL1 0)) (by decide)
  unfold retryBatch
  rw [show normal_max_retries = 9 + 1 from rfl, e1,
    show (9 : ℕ) = 8 + 1 from rfl, e2, parseRetrySeconds_destRL1]
  rfl

theorem runIteration_destRL1 :
    runIteration destRL1 defaultConfig [Item.record ["a"]]
      = ⟨[.append [Item.record ["a"]], .sleepRaw (3 / 2),
          .append [Item.record ["a"]], .sleepRaw 12, .waitStopped 5],
         [], .next⟩ := by
  rw [runIteration_records destRL1 defaultConfig [Item.record ["a"]]
    (by decide) (by decide)]
  have hd : doNextBatch destRL1 defaultConfig [Item.record ["a"]]
      = [.append [Item.record ["a"]], .sleepRaw (3 / 2),
         .append [Item.record ["a"]], .sleepRaw 12] := by
    simp only [doNextBatch,
      show defaultConfig.default_retry_after = (12 : ℚ) from rfl,
      retryBatch_destRL1]
    norm_num [rlPauseWait, show defaultConfig.wait_after_rate_limit = (12 : ℚ) from rfl]
  rw [hd]
  norm_num [show defaultConfig.min_interval = (5 : ℚ) from rfl]

/-- C5 counterexample: with the default configuration and a sink that
rate-limits once then accepts, the iteration is rate-limited (`limited`)
and yet its trace still contains the `min_interval` pacing wait — the
pacing is not either/or, refuting the claim at this input. -/
theorem c5_pacing_counterexample :
    (retryBatch destRL1 defaultConfig.default_retry_after [Item.record ["a"]]
        normal_max_retries).limited = true
    ∧ Effect.waitStopped defaultConfig.min_interval
        ∈ (runIteration destRL1 defaultConfig [Item.record ["a"]]).effects := by
  constructor
  · rw [show defaultConfig.default_retry_after = (12 : ℚ) from rfl,
      retryBatch_destRL1]
  · rw [runIteration_destRL1,
      show defaultConfig.min_interval = (5 : ℚ) from rfl]
    simp

/-- C5 (amended): after `_retry_batch` the worker sleeps
`wait_after_rate_limit` (or the `X-Ratelimit-Reset` header value when that
config is zero) if and only if the batch was rate-limited — but the
`min_interval` pacing wait in `run()` is applied after every successful
iteration, rate-limited or not, in addition to the rate-limit pause. -/
theorem c5_pacing_amended (dest : ℕ → Response) (cfg : Config) (q : List Item)
    (hq : q ≠ []) (hm : ∀ x ∈ q, isStopMarker x = false) :
    ((runIteration dest cfg q).effects
      = doNextBatch dest cfg q
        ++ (if cfg.min_interval ≠ 0 then [Effect.waitStopped cfg.min_interval]
            else []))
    ∧ ((retryBatch dest cfg.default_retry_after q normal_max_retries).limited
          = true →
        ∃ resp,
          (retryBatch dest cfg.default_retry_after q normal_max_retries).response
            = some resp
          ∧ doNextBatch dest cfg q
            = (retryBatch dest cfg.default_retry_after q normal_max_retries).effects
              ++ (match rlPauseWait resp cfg.wait_after_rate_limit with
                  | some w => [Effect.sleepRaw w]
                  | none => []))
    ∧ ((retryBatch dest cfg.default_retry_after q normal_max_retries).limited
          = false →
        doNextBatch dest cfg q
          = (retryBatch dest cfg.default_retry_after q normal_max_retries).effects)
    ∧ (∀ resp : Response, cfg.wait_after_rate_limit ≠ 0 →
        rlPauseWait resp cfg.wait_after_rate_limit
          = some cfg.wait_after_rate_limit) := by
  refine ⟨?_, fun hlim => ?_, fun hlim => ?_, fun resp hw => ?_⟩
  · rw [runIteration_records dest cfg q hq hm]
  · have hsome := retryBatchGo_limited_isSome dest cfg.default_retry_after q
      normal_max_retries 0 false none (fun h => by simp at h) hlim
    obtain ⟨resp, hresp⟩ := Option.isSome_iff_exists.mp hsome
    have hresp2 : (retryBatch dest cfg.default_retry_after q
        normal_max_retries).response = some resp := hresp
    refine ⟨resp, hresp2, ?_⟩
    simp only [doNextBatch, hlim, if_true, hresp2]
    cases hpw : rlPauseWait resp cfg.wait_after_rate_limit <;> simp [hpw]
  · simp [doNextBatch, hlim]
  · simp [rlPauseWait, hw]

/-- C5 witness for the amended statement: the rate-limited run still ends
with the `min_interval` wait appended after `_do_next_batch`'s effects. -/
theorem c5_pacing_amended_witness :
    (runIteration destRL1 defaultConfig [Item.record ["a"]]).effects
      = doNextBatch destRL1 defaultConfig [Item.record ["a"]]
        ++ [Effect.waitStopped defaultConfig.min_interval] := by
  have h := (c5_pacing_amended destRL1 defaultConfig [Item.record ["a"]]
    (by decide) (by decide)).1
  rw [h]
  norm_num [show defaultConfig.min_interval = (5 : ℚ) from rfl]

/-- C6: the stop sentinel is distinguished from records.  A record (a
Python tuple/list) never equals the string marker, so any queue of records
is always treated as batch data and never triggers shutdown; only the
string `StopWorker.marker` pushed by `close()` does. -/
theorem c6_marker_distinct :
    (∀ fields : List String, isStopMarker (Item.record fields) = false)
    ∧ (∀ queue : List Item,
        (∀ x ∈ queue, ∃ fields, x = Item.record fields) → queue ≠ [] →
        getBatch queue none = (.batch queue, []))
    ∧ (∀ post, getBatch (Item.str marker :: post) none
        = (.stopped none, post)) := by
  refine ⟨fun _ => rfl, fun q hall hq => ?_, getBatch_marker_first⟩
  refine getBatch_records q hq (fun x hx => ?_)
  obtain ⟨f, hf⟩ := hall x hx
  rw [hf]
  rfl

/-- C6 witness: even a record whose payload is the literal marker string
is batch data, not a shutdown signal. -/
theorem c6_marker_distinct_witness :
    getBatch [Item.record ["__STOP__"]] none
      = (.batch [Item.record ["__STOP__"]], []) :=
  c6_marker_distinct.2.1 [Item.record ["__STOP__"]]
    (fun x hx => ⟨["__STOP__"], List.mem_singleton.mp hx⟩)
    (by simp)

/-- C7: a permanent failure (response neither ok nor 429) ends the batch
after that single failing attempt — no retry follows it, the failing
response is returned, and the `run()` loop proceeds to the next iteration
instead of raising. -/
theorem c7_permanent_drop (dest : ℕ → Response) (cfg : Config)
    (q : List Item) (k : ℕ) (hq : q ≠ [])
    (hm : ∀ x ∈ q, isStopMarker x = false) (hk : k < normal_max_retries)
    (h429 : ∀ j, j < k → (dest j).ok = false ∧ (dest j).status_code = 429)
    (hfail : (dest k).ok = false) (hn429 : (dest k).status_code ≠ 429) :
    (retryBatch dest cfg.default_retry_after q normal_max_retries).response
        = some (dest k)
    ∧ appendCount (retryBatch dest cfg.default_retry_after q
        normal_max_retries).effects = k + 1
    ∧ (runIteration dest cfg q).outcome = .next := by
  have h := retryBatchGo_permanent dest cfg.default_retry_after q k
    normal_max_retries 0 false none hk
    (fun j hj => by simpa using h429 j hj)
    (by simpa using hfail) (by simpa using hn429)
  exact ⟨by simpa using h.1, h.2,
    by rw [runIteration_records dest cfg q hq hm]⟩

/-- C7 witness: a sink answering HTTP 500 gets exactly one append, its
response comes back, and the iteration continues. -/
theorem c7_permanent_drop_witness :
    (retryBatch destFail defaultConfig.default_retry_after [Item.record ["a"]]
        normal_max_retries).response = some (destFail 0)
    ∧ appendCount (retryBatch destFail defaultConfig.default_retry_after
        [Item.record ["a"]] normal_max_retries).effects = 0 + 1
    ∧ (runIteration destFail defaultConfig [Item.record ["a"]]).outcome
        = .next :=
  c7_permanent_drop destFail defaultConfig [Item.record ["a"]] 0
    (by simp) (by decide) (by decide)
    (fun j hj => absurd hj (Nat.not_lt_zero j)) (by decide) (by decide)

/-- C8: `close()` is idempotent: a second call changes nothing; the first
call sets `stopped` and pushes exactly one stop marker. -/
theorem c8_close_idempotent (w : WorkerView) :
    close (close w) = close w
    ∧ (close w).stopped = true
    ∧ markerCount (close w).queue
        = markerCount w.queue + (if w.stopped then 0 else 1)
    ∧ markerCount (close (close w)).queue = markerCount (close w).queue := by
  obtain ⟨s, q⟩ := w
  cases s <;>
    simp [close, markerCount, List.filter_append, isStopMarker]

theorem parseRetrySeconds_destRL2 : parseRetrySeconds 12 (destRL2 0) = 5 / 2 := by
  have hd : destRL2 0 = ⟨429, [("Retry-After", "2")], "rate limited"⟩ := rfl
  have hh : headerGet [("Retry-After", "2")] "Retry-After" = some "2" := rfl
  rw [hd]
  simp [parseRetrySeconds, hh, pyFloat_two]
  norm_num

theorem retryBatch_destRL2 :
    retryBatch destRL2 (12 : ℚ) [Item.record ["b"]] normal_max_retries
      = ⟨some ⟨200, [], ""⟩, true,
         [.append [Item.record ["b"]], .sleepRaw (5 / 2),
          .append [Item.record ["b"]]]⟩ := by
  have e1 := retryBatchGo_succ_429 destRL2 12 [Item.record ["b"]] 9 0 false none
    (by decide) (by decide)
  have e2 := retryBatchGo_succ_ok destRL2 12 [Item.record ["b"]] 8 1 true
    (some (destRL2 0)) (by decide)
  unfold retryBatch
  rw [show normal_max_retries = 9 + 1 from rfl, e1,
    show (9 : ℕ) = 8 + 1 from rfl, e2, parseRetrySeconds_destRL2]
  rfl

theorem runIteration_destRL2 :
    runIteration destRL2 defaultConfig [Item.record ["b"]]
      = ⟨[.append [Item.record ["b"]], .sleepRaw (5 / 2),
          .append [Item.record ["b"]], .sleepRaw 12, .waitStopped 5],
         [], .next⟩ := by
  rw [runIteration_records destRL2 defaultConfig [Item.record ["b"]]
    (by simp) (by decide)]
  have hd : doNextBatch destRL2 defaultConfig [Item.record ["b"]]
      = [.append [Item.record ["b"]], .sleepRaw (5 / 2),
         .append [Item.record ["b"]], .sleepRaw 12] := by
    simp only [doNextBatch,
      show defaultConfig.default_retry_after = (12 : ℚ) from rfl,
      retryBatch_destRL2]
    norm_num [rlPauseWait,
      show defaultConfig.wait_after_rate_limit = (12 : ℚ) from rfl]
  rw [hd]
  norm_num [show defaultConfig.min_interval = (5 : ℚ) from rfl]

/-- C9 counterexample: the rate-limit backoff of `_retry_batch` is a raw
`time.sleep`, not the interruptible `stopped.wait`, so not every sleep the
loop performs is interruptible by `close()`. -/
theorem c9_sleeps_counterexample :
    Effect.sleepRaw (5 / 2)
        ∈ (runIteration destRL2 defaultConfig [Item.record ["b"]]).effects
    ∧ Effect.isSleep (.sleepRaw (5 / 2)) = true
    ∧ Effect.interruptibleWait (.sleepRaw (5 / 2)) = false := by
  refine ⟨?_, rfl, rfl⟩
  rw [runIteration_destRL2]
  simp

/-- C9 (amended): only the `min_interval` pacing pause uses the
interruptible `stopped.wait`; the rate-limit backoff inside `_retry_batch`
and the post-batch rate-limit pause in `_do_next_batch` are raw
`time.sleep` calls that `close()` cannot cut short. -/
theorem c9_sleeps_amended (dest : ℕ → Response) (cfg : Config)
    (q b : List Item) (dra : ℚ) (maxr : ℕ) :
    (∀ d, Effect.waitStopped d ∈ (runIteration dest cfg q).effects →
        d = cfg.min_interval)
    ∧ (∀ d, Effect.waitStopped d ∉ (retryBatch dest dra b maxr).effects)
    ∧ (∀ d, Effect.waitStopped d ∉ doNextBatch dest cfg b) := by
  refine ⟨fun d hd => ?_,
    fun d => retryBatchGo_no_waitStopped dest dra b maxr 0 false none d,
    fun d => doNextBatch_no_waitStopped dest cfg b d⟩
  unfold runIteration at hd
  rcases hgb : getBatch q none with ⟨res, rest⟩
  rw [hgb] at hd
  cases res with
  | blocked => simp at hd
  | stopped salvage =>
    cases salvage with
    | none => simp at hd
    | some sal =>
      by_cases hse : sal.isEmpty
      · simp [hse] at hd
      · simp [hse] at hd
        exact absurd hd (retryBatchGo_no_waitStopped dest
          cfg.default_retry_after sal stop_flush_retries 0 false none d)
  | batch bb =>
    simp only at hd
    rw [List.mem_append] at hd
    rcases hd with hd | hd
    · exact absurd hd (doNextBatch_no_waitStopped dest cfg bb d)
    · by_cases hmi : cfg.min_interval ≠ 0
      · rw [if_pos hmi] at hd
        simpa using hd
      · rw [if_neg hmi] at hd
        simp at hd

/-- C9 witness for the amended statement: the pacing wait that does occur
is the interruptible one, with the `min_interval` duration. -/
theorem c9_sleeps_amended_witness :
    Effect.waitStopped 5
        ∈ (runIteration okDest defaultConfig [Item.record ["a"]]).effects
    ∧ (5 : ℚ) = defaultConfig.min_interval := by
  have hmem : Effect.waitStopped 5
      ∈ (runIteration okDest defaultConfig [Item.record ["a"]]).effects := by
    rw [runIteration_records okDest defaultConfig [Item.record ["a"]]
      (by simp) (by decide), doNextBatch_okDest]
    norm_num [show defaultConfig.min_interval = (5 : ℚ) from rfl]
  exact ⟨hmem,
    (c9_sleeps_amended okDest defaultConfig [Item.record ["a"]] [] 0 0).1 5 hmem⟩

/-- C10: every sink append call carries a non-empty batch — normal
collection seeds the batch with the blocking dequeue, and the shutdown
flush is skipped when there is nothing to salvage. -/
theorem c10_nonempty_appends (dest : ℕ → Response) (cfg : Config)
    (q : List Item) :
    ∀ b, Effect.append b ∈ (runIteration dest cfg q).effects → b ≠ [] := by
  intro b hb
  unfold runIteration at hb
  rcases hgb : getBatch q none with ⟨res, rest⟩
  rw [hgb] at hb
  cases res with
  | blocked => simp at hb
  | stopped salvage =>
    cases salvage with
    | none => simp at hb
    | some sal =>
      by_cases hse : sal.isEmpty
      · simp [hse] at hb
      · simp [hse] at hb
        rw [retryBatchGo_append_mem dest cfg.default_retry_after sal
          stop_flush_retries 0 false none b hb]
        simpa [List.isEmpty_iff] using hse
  | batch bb =>
    simp only at hb
    rw [List.mem_append] at hb
    rcases hb with hb | hb
    · rw [doNextBatch_append_mem dest cfg bb b hb]
      exact getBatch_batch_ne_nil q bb rest hgb
    · by_cases hmi : cfg.min_interval ≠ 0
      · rw [if_pos hmi] at hb
        simp at hb
      · rw [if_neg hmi] at hb
        simp at hb

/-- C10 witness: the one append the default run performs carries the
non-empty batch. -/
theorem c10_nonempty_appends_witness :
    Effect.append [Item.record ["a"]]
        ∈ (runIteration okDest defaultConfig [Item.record ["a"]]).effects
    ∧ [Item.record ["a"]] ≠ ([] : List Item) := by
  have hmem : Effect.append [Item.record ["a"]]
      ∈ (runIteration okDest defaultConfig [Item.record ["a"]]).effects := by
    rw [runIteration_records okDest defaultConfig [Item.record ["a"]]
      (by simp) (by decide), doNextBatch_okDest]
    simp
  exact ⟨hmem, c10_nonempty_appends okDest defaultConfig [Item.record ["a"]]
    [Item.record ["a"]] hmem⟩

end Verdin
